import Mathlib

/-!
Shallow embedding of the scoring core of `business-signal-analyzer`
(`src/backend/scoring/engine.py`).

Modelling conventions:
* Python floats are modelled as real numbers (`ℝ`).
* A Python dict used as a record (signals, ideas) is modelled as a structure
  whose optional entries are `Option`-typed; `d.get(k)` on an absent key is
  `none`, and Python truthiness of an optional string (`None` and `""` are
  falsy) is the function `truthyStr`.
* The weight table is kept as an association list `List (String × ℝ)` because
  the code manipulates it as a dict with unknown key sets; `self.weights[k]`
  (which raises `KeyError` when `k` is absent) is the `Option`-valued `lookup`.
* Fallible code paths (KeyError, ZeroDivisionError) return `none`.
* `datetime.utcnow()` is modelled by an explicit integer parameter `today`
  (a day number); `_is_recent` compares day numbers, abstracting the
  time-of-day part of the clock but keeping the calendar-date arithmetic.
-/

namespace BSA

/-- One demand signal, as consumed by the engine: `s['metric_type']` and
`s['metric_value']` are required keys (a `KeyError` on them is outside every
signal set the spec admits), while `s.get('source', '')` defaults to `""` and
`s.get('data_date')` is optional. -/
structure Signal where
  metric_type : String
  metric_value : ℝ
  source : String := ""
  data_date : Option String := none

/-- A business idea's qualitative attributes, as read by the engine via
`idea.get(...)`: every field the engine touches is optional. -/
structure Idea where
  ops_burden_estimate : Option String := none
  pricing_model : Option String := none
  target_user : Option String := none
  value_prop : Option String := none
  distribution_channel : Option String := none
  compliance_risks : Option String := none

/-- Python truthiness of an optional string: `None` and `""` are falsy. -/
def truthyStr : Option String → Bool
  | none => false
  | some s => !s.isEmpty

/-- The output of the engine (`ScoreBreakdown` dataclass). -/
structure ScoreBreakdown where
  demand_strength : ℝ
  demand_velocity : ℝ
  competition_proxy : ℝ
  feasibility : ℝ
  automation_friendly : ℝ
  monetization_clarity : ℝ
  total : ℝ

/-- Leap-year-aware month length (mirrors the validation `strptime` performs
on `'%Y-%m-%d'` inputs). -/
def daysInMonth (y m : ℕ) : ℕ :=
  if m = 2 then (if y % 4 = 0 ∧ (y % 100 ≠ 0 ∨ y % 400 = 0) then 29 else 28)
  else if m = 4 ∨ m = 6 ∨ m = 9 ∨ m = 11 then 30
  else 31

/-- Days since 1970-01-01 of a civil date (standard era-based conversion;
used only on validated dates, where every division operand is nonnegative). -/
def daysFromCivil (y m d : ℤ) : ℤ :=
  let y' := if m ≤ 2 then y - 1 else y
  let era := (if 0 ≤ y' then y' else y' - 399) / 400
  let yoe := y' - era * 400
  let mp := (m + 9) % 12
  let doy := (153 * mp + 2) / 5 + d - 1
  let doe := yoe * 365 + yoe / 4 - yoe / 100 + doy
  era * 146097 + doe - 719468

/-- Split a character list at `'-'` separators (the shape `'%Y-%m-%d'`
imposes on its input). -/
def splitDash : List Char → List (List Char)
  | [] => [[]]
  | c :: rest =>
    if c = '-' then [] :: splitDash rest
    else
      match splitDash rest with
      | g :: gs => (c :: g) :: gs
      | [] => [[c]]

/-- Decimal value of one digit character. -/
def charDigit (c : Char) : Option ℕ :=
  if '0' ≤ c ∧ c ≤ '9' then some (c.toNat - 48) else none

/-- Decimal value of a digit string (`none` on the empty string or any
non-digit character). -/
def digitsValAux (acc : ℕ) : List Char → Option ℕ
  | [] => some acc
  | c :: cs =>
    match charDigit c with
    | none => none
    | some d => digitsValAux (acc * 10 + d) cs

/-- Decimal value of a digit string, `none` when empty or malformed. -/
def digitsVal : List Char → Option ℕ
  | [] => none
  | cs => digitsValAux 0 cs

/-- `datetime.strptime(date_str, '%Y-%m-%d')`, returned as a day number:
three dash-separated decimal fields, with the calendar validation `strptime`
performs; any parse failure is `none` (the Python code turns it into
`False` via the bare `except`). -/
def parseDate (s : String) : Option ℤ :=
  match splitDash s.data with
  | [ys, ms, ds] =>
    match digitsVal ys, digitsVal ms, digitsVal ds with
    | some y, some m, some d =>
      if 1 ≤ y ∧ y ≤ 9999 ∧ 1 ≤ m ∧ m ≤ 12 ∧ 1 ≤ d ∧ d ≤ daysInMonth y m then
        some (daysFromCivil y m d)
      else none
    | _, _, _ => none
  | _ => none

/-- `ScoringEngine._is_recent`: parse the date, `False` on failure, else
compare against the current day `today` (the model of `datetime.utcnow()`);
note a future date also counts as recent, exactly as in the source. -/
def is_recent (today : ℤ) (date_str : String) (days : ℤ := 7) : Bool :=
  match parseDate date_str with
  | none => false
  | some d => today - d < days

/-- The guard `s.get('data_date') and self._is_recent(s['data_date'], days=7)`
of the recency fallback. -/
def signalRecent (today : ℤ) (s : Signal) : Bool :=
  match s.data_date with
  | none => false
  | some d => !d.isEmpty && is_recent today d

/-- The metric types treated as volume metrics in
`calculate_demand_strength`. -/
def volumeTypes : List String :=
  ["volume", "post_count", "story_count", "video_count", "interest_score"]

/-- `str.lower()` (character-wise lowering of a string). -/
def lowerStr (s : String) : String :=
  ⟨s.data.map Char.toLower⟩

/-- `ScoringEngine.calculate_demand_strength`. -/
noncomputable def calculate_demand_strength (signals : List Signal) : ℝ :=
  if signals.isEmpty then 0.0
  else
    let volume_metrics :=
      (signals.filter (fun s => volumeTypes.contains s.metric_type)).map
        (fun s => s.metric_value)
    if volume_metrics.isEmpty then 50.0
    else
      let avg_volume := volume_metrics.sum / volume_metrics.length
      min 100 (Real.log (1 + avg_volume) * 10)

/-- The metric types treated as growth metrics in
`calculate_demand_velocity`. -/
def growthTypes : List String := ["growth_rate", "trend_slope"]

/-- `ScoringEngine.calculate_demand_velocity`; `today` models
`datetime.utcnow()` read inside `_is_recent`. -/
noncomputable def calculate_demand_velocity (today : ℤ) (signals : List Signal) : ℝ :=
  if signals.isEmpty then 50.0
  else
    let growth_signals :=
      (signals.filter (fun s => growthTypes.contains s.metric_type)).map
        (fun s => s.metric_value)
    if !growth_signals.isEmpty then
      let avg_growth := growth_signals.sum / growth_signals.length
      max 0 (min 100 (50 + avg_growth / 2))
    else if signals.any (signalRecent today) then 70.0
    else 50.0

/-- Substring containment on character lists (`'show_hn' in s.get('source', '')`). -/
def containsSub (needle : List Char) : List Char → Bool
  | [] => needle.isEmpty
  | c :: cs => needle.isPrefixOf (c :: cs) || containsSub needle cs

/-- `ScoringEngine.calculate_competition_proxy`. -/
noncomputable def calculate_competition_proxy (signals : List Signal) (_idea : Idea) : ℝ :=
  let volume := calculate_demand_strength signals
  let show_hn_count :=
    (signals.filter (fun s => containsSub "show_hn".data s.source.data)).length
  if show_hn_count > 5 then 30.0
  else if volume > 80 then 50.0
  else if volume < 30 then 80.0
  else 65.0

/-- The `burden_scores` table of `calculate_feasibility`, including the
`.get(ops_burden, 65.0)` default. -/
def burdenFeasibility (b : String) : ℝ :=
  if b = "low" then 85.0 else if b = "medium" then 65.0
  else if b = "high" then 40.0 else 65.0

/-- `ScoringEngine.calculate_feasibility`. -/
noncomputable def calculate_feasibility (idea : Idea) : ℝ :=
  let ops_burden := lowerStr (idea.ops_burden_estimate.getD "medium")
  let base_score := burdenFeasibility ops_burden
  let base_score :=
    if truthyStr idea.distribution_channel then base_score + 10 else base_score
  let base_score :=
    if truthyStr idea.compliance_risks then base_score - 15 else base_score
  max 0 (min 100 base_score)

/-- The `burden_scores` table of `calculate_automation_friendly`, including
the `.get(ops_burden, 60.0)` default. -/
def burdenAutomation (b : String) : ℝ :=
  if b = "low" then 90.0 else if b = "medium" then 60.0
  else if b = "high" then 30.0 else 60.0

/-- `ScoringEngine.calculate_automation_friendly`. -/
noncomputable def calculate_automation_friendly (idea : Idea) : ℝ :=
  burdenAutomation (lowerStr (idea.ops_burden_estimate.getD "medium"))

theorem lowerStr_lit_low : lowerStr "low" = "low" := by decide

theorem lowerStr_lit_medium : lowerStr "medium" = "medium" := by decide

theorem lowerStr_lit_high : lowerStr "high" = "high" := by decide

/-- `ScoringEngine.calculate_monetization_clarity`. -/
noncomputable def calculate_monetization_clarity (idea : Idea) : ℝ :=
  let score : ℝ := 50.0
  let score := if truthyStr idea.pricing_model then score + 20 else score
  let score := if truthyStr idea.target_user then score + 15 else score
  let score := if truthyStr idea.value_prop then score + 15 else score
  min 100 score

/-- `ScoringEngine.DEFAULT_WEIGHTS`. -/
noncomputable def DEFAULT_WEIGHTS : List (String × ℝ) :=
  [("demand_strength", 0.25), ("demand_velocity", 0.20),
   ("competition_proxy", 0.15), ("feasibility", 0.20),
   ("automation_friendly", 0.10), ("monetization_clarity", 0.10)]

/-- Dict lookup `w[k]`: `none` models the `KeyError` raised on a missing
key. -/
def lookup (w : List (String × ℝ)) (k : String) : Option ℝ :=
  (w.find? (fun kv => kv.1 == k)).map (fun kv => kv.2)

/-- `ScoringEngine._validate_weights`: keep the table when the sum is within
`0.001` of `1.0`; otherwise divide every weight by the sum — `none` models
the `ZeroDivisionError` raised when the sum is zero. -/
noncomputable def validate_weights (w : List (String × ℝ)) : Option (List (String × ℝ)) :=
  let total := (w.map (fun kv => kv.2)).sum
  if |total - 1.0| ≤ 0.001 then some w
  else if total = 0 then none
  else some (w.map (fun kv => (kv.1, kv.2 / total)))

/-- `ScoringEngine.score_idea` over a validated weight table `w`: the six
factor scores, then the weighted total via the six dict lookups
`self.weights[...]` (`none` models the `KeyError` on a missing factor key). -/
noncomputable def score_idea (w : List (String × ℝ)) (today : ℤ)
    (idea : Idea) (signals : List Signal) : Option ScoreBreakdown :=
  let demand_strength := calculate_demand_strength signals
  let demand_velocity := calculate_demand_velocity today signals
  let competition_proxy := calculate_competition_proxy signals idea
  let feasibility := calculate_feasibility idea
  let automation_friendly := calculate_automation_friendly idea
  let monetization_clarity := calculate_monetization_clarity idea
  (lookup w "demand_strength").bind (fun w1 =>
  (lookup w "demand_velocity").bind (fun w2 =>
  (lookup w "competition_proxy").bind (fun w3 =>
  (lookup w "feasibility").bind (fun w4 =>
  (lookup w "automation_friendly").bind (fun w5 =>
  (lookup w "monetization_clarity").bind (fun w6 =>
    some { demand_strength := demand_strength
           demand_velocity := demand_velocity
           competition_proxy := competition_proxy
           feasibility := feasibility
           automation_friendly := automation_friendly
           monetization_clarity := monetization_clarity
           total := demand_strength * w1 + demand_velocity * w2 +
                    competition_proxy * w3 + feasibility * w4 +
                    automation_friendly * w5 + monetization_clarity * w6 }))))))

/-- The full engine pipeline for one idea: `ScoringEngine.__init__` validates
the loaded weight table, then `score_idea` uses it. -/
noncomputable def engine_score (cfg : List (String × ℝ)) (today : ℤ)
    (idea : Idea) (signals : List Signal) : Option ScoreBreakdown :=
  (validate_weights cfg).bind (fun w => score_idea w today idea signals)

/-- Python `round(x, 2)` modelled as decimal round-half-even on reals. -/
noncomputable def pyRound2 (x : ℝ) : ℝ :=
  let y := x * 100
  let f := ⌊y⌋
  let r := y - f
  let n : ℤ :=
    if r < 1 / 2 then f
    else if 1 / 2 < r then f + 1
    else if f % 2 = 0 then f else f + 1
  (n : ℝ) / 100

/-- `ScoreBreakdown.to_dict`: the six sub-scores and the total, rounded to
two decimals. -/
noncomputable def ScoreBreakdown.to_dict (b : ScoreBreakdown) : List (String × ℝ) :=
  [("demand_strength", pyRound2 b.demand_strength),
   ("demand_velocity", pyRound2 b.demand_velocity),
   ("competition_proxy", pyRound2 b.competition_proxy),
   ("feasibility", pyRound2 b.feasibility),
   ("automation_friendly", pyRound2 b.automation_friendly),
   ("monetization_clarity", pyRound2 b.monetization_clarity),
   ("total", pyRound2 b.total)]

/-- One entry of the list `rank_ideas` builds: `dict(idea)` plus the keys
`total_score`, `score_breakdown` and (after sorting) `rank`. -/
structure ScoredIdea where
  idea : Idea
  total_score : ℝ
  score_breakdown : List (String × ℝ)
  rank : ℕ := 0

/-- Stable insertion into a descending-sorted list: the inserted element
(earlier in the original input than everything already placed) goes before
the first element whose key does not exceed its own. -/
noncomputable def insertByDesc {α : Type} (key : α → ℝ) (x : α) : List α → List α
  | [] => [x]
  | y :: ys => if key y ≤ key x then x :: y :: ys else y :: insertByDesc key x ys

/-- Stable descending sort by `key`: the model of Python's (stable)
`list.sort(key=..., reverse=True)` used in `rank_ideas`. A stable sort's
output is uniquely determined by the key order and the input order of ties,
so any stable implementation is extensionally the library sort. -/
noncomputable def sortByDesc {α : Type} (key : α → ℝ) : List α → List α
  | [] => []
  | x :: xs => insertByDesc key x (sortByDesc key xs)

/-- The scoring loop at the top of `ScoringEngine.rank_ideas`: score every
`(idea, signals)` pair in input order (`none` models a `KeyError` escaping
the loop). -/
noncomputable def scoredOf (w : List (String × ℝ)) (today : ℤ) :
    List (Idea × List Signal) → Option (List ScoredIdea)
  | [] => some []
  | it :: rest =>
    match score_idea w today it.1 it.2 with
    | none => none
    | some b =>
      match scoredOf w today rest with
      | none => none
      | some tl =>
        some ({ idea := it.1, total_score := b.total,
                score_breakdown := b.to_dict } :: tl)

/-- `ScoringEngine.rank_ideas`: score, sort by `total_score` descending
(stable), then assign ranks `1, 2, ...` in output order. -/
noncomputable def rank_ideas (w : List (String × ℝ)) (today : ℤ)
    (items : List (Idea × List Signal)) : Option (List ScoredIdea) :=
  (scoredOf w today items).map (fun scored =>
    ((sortByDesc (fun x => x.total_score) scored).enum).map
      (fun p => { p.2 with rank := p.1 + 1 }))

/-!
Heap model of `rank_ideas`, for its frame property: Python idea dicts are
mutable objects, so we give them explicit identities. A heap is a list of
cells; a reference is an index; `dict(idea)` allocates a fresh cell; writing
`idea['rank'] = i` mutates one cell in place. The scoring arithmetic itself
is the pure `score_idea` above.
-/

/-- The contents of one idea dict: the original fields plus the
`total_score` / `score_breakdown` / `rank` keys that `rank_ideas` may add. -/
structure IdeaCell where
  fields : Idea
  total_score : Option ℝ := none
  score_breakdown : Option (List (String × ℝ)) := none
  rank : Option ℕ := none

/-- A heap of idea dicts; a reference is an index into the list. -/
abbrev Heap : Type := List IdeaCell

/-- Allocate a fresh cell (`dict(idea)` plus the two score keys written
immediately after the copy): returns the fresh reference and the new heap. -/
def allocCell (h : Heap) (c : IdeaCell) : ℕ × Heap :=
  (List.length h, h ++ [c])

/-- `idea['rank'] = k` on the dict at reference `r`. -/
def writeRank (h : Heap) (r : ℕ) (k : ℕ) : Heap :=
  match h[r]? with
  | none => h
  | some c => List.set h r { c with rank := some k }

/-- The first loop of `rank_ideas`: for each `(ref, signals)` pair read the
idea dict, score it, and allocate the scored copy; the returned references
are the copies, in input order. `none` models an escaping exception, with
the heap as mutated so far. -/
noncomputable def scoreCopyPhase (w : List (String × ℝ)) (today : ℤ) :
    Heap → List (ℕ × List Signal) → Heap × Option (List ℕ)
  | h, [] => (h, some [])
  | h, (r, sigs) :: rest =>
    match h[r]? with
    | none => (h, none)
    | some cell =>
      match score_idea w today cell.fields sigs with
      | none => (h, none)
      | some b =>
        let rh := allocCell h
          { fields := cell.fields, total_score := some b.total,
            score_breakdown := some b.to_dict }
        let hrs := scoreCopyPhase w today rh.2 rest
        (hrs.1, hrs.2.map (fun rs => rh.1 :: rs))

/-- The sort key `x['total_score']` read from the heap. -/
noncomputable def heapKey (h : Heap) (r : ℕ) : ℝ :=
  ((h[r]?).bind (fun c => c.total_score)).getD 0

/-- Heap-level `ScoringEngine.rank_ideas`: score-and-copy, sort the copy
references by `total_score` descending, then write ranks into the copies. -/
noncomputable def rankIdeasHeap (w : List (String × ℝ)) (today : ℤ)
    (h : Heap) (items : List (ℕ × List Signal)) : Heap × Option (List ℕ) :=
  let hrs := scoreCopyPhase w today h items
  match hrs.2 with
  | none => (hrs.1, none)
  | some refs =>
    let sorted := sortByDesc (heapKey hrs.1) refs
    let h2 := (sorted.enum).foldl (fun acc p => writeRank acc p.2 (p.1 + 1)) hrs.1
    (h2, some sorted)

/-! Evaluation lemmas for sparse inputs, shared by several claims. -/

theorem cds_nil : calculate_demand_strength [] = 0 := by
  norm_num [calculate_demand_strength]

theorem cdv_nil (today : ℤ) : calculate_demand_velocity today [] = 50 := by
  norm_num [calculate_demand_velocity]

theorem ccp_nil (idea : Idea) : calculate_competition_proxy [] idea = 80 := by
  norm_num [calculate_competition_proxy, cds_nil, List.filter]

theorem cfe_sparse : calculate_feasibility {} = 65 := by
  simp [calculate_feasibility, truthyStr, burdenFeasibility, Option.getD,
    lowerStr_lit_medium]
  norm_num [min_def, max_def]

theorem cau_sparse : calculate_automation_friendly {} = 60 := by
  simp [calculate_automation_friendly, burdenAutomation, Option.getD,
    lowerStr_lit_medium]
  norm_num

theorem cmo_sparse : calculate_monetization_clarity {} = 50 := by
  norm_num [calculate_monetization_clarity, truthyStr]

theorem score_idea_default_empty (today : ℤ) :
    score_idea DEFAULT_WEIGHTS today {} [] =
      some ⟨0, 50, 80, 65, 60, 50, 46⟩ := by
  simp [score_idea, lookup, DEFAULT_WEIGHTS, cds_nil, cdv_nil,
    ccp_nil, cfe_sparse, cau_sparse, cmo_sparse]
  norm_num

/-- C6: for the empty signal list, `calculate_demand_strength` returns
exactly `0.0` while `calculate_demand_velocity` returns exactly `50.0`, and
these two empty-input results differ. -/
theorem C6_empty_signal_floors (today : ℤ) :
    calculate_demand_strength [] = 0 ∧ calculate_demand_velocity today [] = 50 ∧
    calculate_demand_strength [] ≠ calculate_demand_velocity today [] := by
  refine ⟨cds_nil, cdv_nil today, ?_⟩
  rw [cds_nil, cdv_nil]
  norm_num

/-- C8: with the default weight table, `score_idea` succeeds on every idea
(in particular those with any or all optional fields absent) together with
the empty signal list, and on the fully sparse idea it returns the
well-defined neutral breakdown `(0, 50, 80, 65, 60, 50, 46)`. -/
theorem C8_sparse_inputs_never_fail :
    (∀ (idea : Idea) (today : ℤ),
      (score_idea DEFAULT_WEIGHTS today idea []).isSome = true) ∧
    (∀ today : ℤ, score_idea DEFAULT_WEIGHTS today {} [] =
      some ⟨0, 50, 80, 65, 60, 50, 46⟩) := by
  constructor
  · intro idea today
    simp [score_idea, lookup, DEFAULT_WEIGHTS, List.find?]
  · exact score_idea_default_empty

/-- A weight table with a negative entry whose sum is nevertheless `1.0`:
the engine's validation accepts it unchanged. -/
noncomputable def wNeg : List (String × ℝ) :=
  [("demand_strength", 1.5), ("demand_velocity", -0.5),
   ("competition_proxy", 0), ("feasibility", 0),
   ("automation_friendly", 0), ("monetization_clarity", 0)]

theorem validate_wNeg : validate_weights wNeg = some wNeg := by
  rw [validate_weights]
  norm_num [wNeg]

theorem engine_wNeg :
    (engine_score wNeg 0 {} []).map (fun b => b.total) = some (-25) := by
  rw [engine_score, validate_wNeg]
  simp [score_idea, lookup, wNeg, cds_nil, cdv_nil, ccp_nil, cfe_sparse,
    cau_sparse, cmo_sparse]
  norm_num

/-- C1 counterexample: `wNeg` has a negative weight for `demand_velocity`,
yet `_validate_weights` accepts it unchanged and the engine silently produces
scores from it (a breakdown with total `-25`), with no `ConfigurationError`
anywhere — refuting the claim at this concrete table. -/
theorem C1_counterexample :
    lookup wNeg "demand_velocity" = some (-0.5) ∧
    validate_weights wNeg = some wNeg ∧
    (engine_score wNeg 0 {} []).map (fun b => b.total) = some (-25) := by
  refine ⟨?_, validate_wNeg, engine_wNeg⟩
  simp [lookup, wNeg]

/-- C1 (amended): a weight table whose sum is zero makes `_validate_weights`
fail with an uncaught `ZeroDivisionError` (modelled as `none`), not a
`ConfigurationError`; and a table containing a negative weight whose sum is
within tolerance of `1.0` is accepted silently, after which the engine
produces (meaningless, here negative) scores from it. -/
theorem C1_zero_sum_or_negative_weights :
    (∀ w : List (String × ℝ), (w.map (fun kv => kv.2)).sum = 0 →
      validate_weights w = none) ∧
    validate_weights wNeg = some wNeg ∧
    (engine_score wNeg 0 {} []).map (fun b => b.total) = some (-25) := by
  refine ⟨?_, validate_wNeg, engine_wNeg⟩
  intro w hw
  rw [validate_weights]
  simp only [hw]
  norm_num

/-- C1 witness: the all-zero table is rejected by validation (the
division-by-zero path), instantiating the universal part of the theorem. -/
theorem C1_zero_sum_or_negative_weights_witness :
    validate_weights [("demand_strength", (0 : ℝ))] = none :=
  C1_zero_sum_or_negative_weights.1 _ (by simp)

/-- Sum of the values of a weight table after dividing every value by `t`. -/
theorem sum_map_snd_div (l : List (String × ℝ)) (t : ℝ) :
    ((l.map (fun kv => (kv.1, kv.2 / t))).map (fun kv => kv.2)).sum =
      ((l.map (fun kv => kv.2)).sum) / t := by
  induction l with
  | nil => simp
  | cons x xs ih =>
    simp only [List.map_cons, List.map_map, List.sum_cons] at ih ⊢
    rw [ih, add_div]

/-- C9: weight validation is idempotent — a table already within `1e-3` of
sum `1.0` is returned exactly unchanged, and validating the output of a
successful validation changes nothing. -/
theorem C9_validate_weights_idempotent :
    (∀ w : List (String × ℝ),
      |((w.map (fun kv => kv.2)).sum) - 1| ≤ 0.001 →
      validate_weights w = some w) ∧
    (∀ w w' : List (String × ℝ), validate_weights w = some w' →
      validate_weights w' = some w') := by
  constructor
  · intro w hw
    simp only [validate_weights]
    rw [if_pos (show |(List.map (fun kv => kv.2) w).sum - 1.0| ≤ 0.001 by
      norm_num at hw ⊢; exact hw)]
  · intro w w' h
    simp only [validate_weights] at h
    by_cases h1 : |(List.map (fun kv => kv.2) w).sum - 1.0| ≤ 0.001
    · rw [if_pos h1] at h
      obtain rfl : w = w' := Option.some.inj h
      simp only [validate_weights]
      rw [if_pos h1]
    · rw [if_neg h1] at h
      by_cases h2 : (List.map (fun kv => kv.2) w).sum = 0
      · rw [if_pos h2] at h
        exact absurd h (by simp)
      · rw [if_neg h2] at h
        obtain rfl := Option.some.inj h
        simp only [validate_weights]
        rw [sum_map_snd_div, div_self h2, if_pos (by norm_num)]

/-- C9 witness: the default table sums to exactly `1.0`, so validation
returns it unchanged. -/
theorem C9_validate_weights_idempotent_witness :
    validate_weights DEFAULT_WEIGHTS = some DEFAULT_WEIGHTS :=
  C9_validate_weights_idempotent.1 DEFAULT_WEIGHTS (by
    norm_num [DEFAULT_WEIGHTS])

/-- Lookup in a normalized table finds the same key, with the value
divided. -/
theorem lookup_map_div (w : List (String × ℝ)) (t : ℝ) (k : String) :
    lookup (w.map (fun kv => (kv.1, kv.2 / t))) k =
      (lookup w k).map (fun v => v / t) := by
  induction w with
  | nil => simp [lookup]
  | cons x xs ih =>
    by_cases h : (x.1 == k)
    · simp [lookup, List.find?_cons, h]
    · simp only [lookup, List.map_cons, List.find?_cons] at ih ⊢
      simp only [h]
      exact ih

/-- A table missing the `monetization_clarity` key makes `score_idea` fail
(`KeyError`), whatever the other lookups give. -/
theorem score_idea_none_of_mon_missing (w : List (String × ℝ)) (today : ℤ)
    (idea : Idea) (signals : List Signal)
    (h : lookup w "monetization_clarity" = none) :
    score_idea w today idea signals = none := by
  simp only [score_idea]
  cases h1 : lookup w "demand_strength" <;>
    cases h2 : lookup w "demand_velocity" <;>
    cases h3 : lookup w "competition_proxy" <;>
    cases h4 : lookup w "feasibility" <;>
    cases h5 : lookup w "automation_friendly" <;>
    simp [h, h1, h2, h3, h4, h5]

/-- The whole engine pipeline fails on a table missing the
`monetization_clarity` key: normalization does not introduce it. -/
theorem engine_score_none_of_mon_missing (w : List (String × ℝ)) (today : ℤ)
    (idea : Idea) (signals : List Signal)
    (h : lookup w "monetization_clarity" = none) :
    engine_score w today idea signals = none := by
  rw [engine_score]
  simp only [validate_weights]
  by_cases h1 : |(List.map (fun kv => kv.2) w).sum - 1.0| ≤ 0.001
  · rw [if_pos h1]
    simp only [Option.some_bind]
    exact score_idea_none_of_mon_missing w today idea signals h
  · rw [if_neg h1]
    by_cases h2 : (List.map (fun kv => kv.2) w).sum = 0
    · rw [if_pos h2]
      rfl
    · rw [if_neg h2]
      simp only [Option.some_bind]
      refine score_idea_none_of_mon_missing _ today idea signals ?_
      rw [lookup_map_div, h]
      rfl

/-- The default table with the `monetization_clarity` entry removed. -/
noncomputable def wMissing : List (String × ℝ) :=
  [("demand_strength", 0.25), ("demand_velocity", 0.20),
   ("competition_proxy", 0.15), ("feasibility", 0.20),
   ("automation_friendly", 0.10)]

/-- The default table with one unrecognized extra key added. -/
noncomputable def wUnknown : List (String × ℝ) :=
  DEFAULT_WEIGHTS ++ [("extra_factor", 1.0)]

theorem validate_DEFAULT :
    validate_weights DEFAULT_WEIGHTS = some DEFAULT_WEIGHTS := by
  simp only [validate_weights]
  rw [if_pos (by simp [DEFAULT_WEIGHTS]; norm_num)]

theorem engine_default_empty :
    (engine_score DEFAULT_WEIGHTS 0 {} []).map (fun b => b.total) = some 46 := by
  rw [engine_score, validate_DEFAULT, Option.some_bind, score_idea_default_empty]
  rfl

theorem validate_wUnknown :
    validate_weights wUnknown =
      some (wUnknown.map (fun kv => (kv.1, kv.2 / 2))) := by
  have hsum : (List.map (fun kv => kv.2) wUnknown).sum = 2 := by
    simp [wUnknown, DEFAULT_WEIGHTS]
    norm_num
  simp only [validate_weights, hsum]
  rw [if_neg (by norm_num), if_neg (by norm_num)]

theorem engine_wUnknown :
    (engine_score wUnknown 0 {} []).map (fun b => b.total) = some 23 := by
  rw [engine_score, validate_wUnknown, Option.some_bind]
  simp [score_idea, lookup_map_div, lookup, wUnknown, DEFAULT_WEIGHTS,
    cds_nil, cdv_nil, ccp_nil, cfe_sparse, cau_sparse, cmo_sparse]
  norm_num

/-- C3 counterexample: with the `monetization_clarity` entry removed from
the default table, scoring fails outright (no per-key default fallback);
and adding one unrecognized key to the default table changes the total of
the fully sparse idea from `46` to `23` (the unknown key is not ignored —
it halves every effective weight through normalization). -/
theorem C3_counterexample :
    engine_score wMissing 0 {} [] = none ∧
    (engine_score wUnknown 0 {} []).map (fun b => b.total) = some 23 ∧
    (engine_score DEFAULT_WEIGHTS 0 {} []).map (fun b => b.total) = some 46 := by
  refine ⟨?_, engine_wUnknown, engine_default_empty⟩
  exact engine_score_none_of_mon_missing wMissing 0 {} [] (by simp [lookup, wMissing])

/-- C3 (amended): only a wholly missing weights mapping falls back to the
default table; with a partial mapping, a missing recognized key does not
fall back to its default — the engine fails with a `KeyError` (no result) —
and unknown keys are not ignored: they enter the normalization sum and
change every recognized factor's effective weight and the total. -/
theorem C3_weight_table_keys :
    (∀ (w : List (String × ℝ)) (today : ℤ) (idea : Idea)
      (signals : List Signal),
      lookup w "monetization_clarity" = none →
      engine_score w today idea signals = none) ∧
    (engine_score wUnknown 0 {} []).map (fun b => b.total) = some 23 ∧
    (engine_score DEFAULT_WEIGHTS 0 {} []).map (fun b => b.total) = some 46 :=
  ⟨engine_score_none_of_mon_missing, engine_wUnknown, engine_default_empty⟩

/-- C3 witness: the universal part applied to the concrete five-key table. -/
theorem C3_weight_table_keys_witness :
    engine_score wMissing 0 {} [] = none :=
  C3_weight_table_keys.1 wMissing 0 {} [] (by simp [lookup, wMissing])

/-! The concrete scenario of the spec (claim C2): three volume signals with
values `150`, `75`, `25`, an idea with low ops burden and every qualitative
field present except compliance risks. The mean volume is `250/3`, so the
demand strength is `10 * ln(1 + 250/3) = 10 * ln(253/3)`. -/

noncomputable def sigs2 : List Signal :=
  [{ metric_type := "post_count", metric_value := 150 },
   { metric_type := "interest_score", metric_value := 75 },
   { metric_type := "story_count", metric_value := 25 }]

noncomputable def idea2 : Idea :=
  { ops_burden_estimate := some "low", pricing_model := some "subscription",
    target_user := some "freelancers", value_prop := some "automation",
    distribution_channel := some "content", compliance_risks := none }

theorem log_84_lt : Real.log (253 / 3) < 4.9 := by
  rw [Real.log_lt_iff_lt_exp (by norm_num)]
  have h1 : (1.1 : ℝ) ≤ Real.exp 0.1 := by
    have := Real.add_one_le_exp (0.1 : ℝ)
    linarith
  have h2 : ((1.1 : ℝ)) ^ (49 : ℕ) ≤ (Real.exp 0.1) ^ (49 : ℕ) :=
    pow_le_pow_left (by norm_num) h1 49
  have h3 : (Real.exp 0.1) ^ (49 : ℕ) = Real.exp 4.9 := by
    rw [← Real.exp_nat_mul]
    norm_num
  calc (253 : ℝ) / 3 < (1.1 : ℝ) ^ (49 : ℕ) := by norm_num
    _ ≤ (Real.exp 0.1) ^ (49 : ℕ) := h2
    _ = Real.exp 4.9 := h3

theorem log_84_gt : 4.1 < Real.log (253 / 3) := by
  rw [Real.lt_log_iff_exp_lt (by norm_num)]
  have h1 : (0.9 : ℝ) ≤ Real.exp (-0.1) := by
    have := Real.add_one_le_exp (-0.1 : ℝ)
    linarith
  have h2 : ((0.9 : ℝ)) ^ (41 : ℕ) ≤ (Real.exp (-0.1)) ^ (41 : ℕ) :=
    pow_le_pow_left (by norm_num) h1 41
  have h3 : (Real.exp (-0.1)) ^ (41 : ℕ) = Real.exp (-4.1) := by
    rw [← Real.exp_nat_mul]
    norm_num
  have h4 : (0.9 : ℝ) ^ (41 : ℕ) ≤ Real.exp (-4.1) := h3 ▸ h2
  have h5 : Real.exp (4.1 : ℝ) = (Real.exp (-4.1))⁻¹ := by
    rw [← Real.exp_neg]
    norm_num
  have h6 : (0 : ℝ) < (0.9 : ℝ) ^ (41 : ℕ) := by positivity
  calc Real.exp (4.1 : ℝ) = (Real.exp (-4.1))⁻¹ := h5
    _ ≤ ((0.9 : ℝ) ^ (41 : ℕ))⁻¹ := inv_le_inv_of_le h6 h4
    _ < 253 / 3 := by norm_num

theorem cds_sigs2 :
    calculate_demand_strength sigs2 = Real.log (253 / 3) * 10 := by
  have hub : Real.log (253 / 3) * 10 ≤ 100 := by nlinarith [log_84_lt]
  simp [calculate_demand_strength, sigs2, volumeTypes]
  norm_num
  exact hub

theorem cdv_sigs2 (today : ℤ) : calculate_demand_velocity today sigs2 = 50 := by
  simp [calculate_demand_velocity, sigs2, growthTypes, signalRecent]
  norm_num

theorem ccp_sigs2 : calculate_competition_proxy sigs2 idea2 = 65 := by
  have hpred : containsSub "show_hn".data ("" : String).data = false := by decide
  simp only [calculate_competition_proxy, cds_sigs2]
  simp [sigs2, hpred]
  rw [if_neg (by nlinarith [log_84_lt]), if_neg (by nlinarith [log_84_gt])]
  norm_num

theorem cfe_idea2 : calculate_feasibility idea2 = 95 := by
  simp [calculate_feasibility, idea2, truthyStr, burdenFeasibility,
    lowerStr_lit_low, show ("content".isEmpty) = false from by decide]
  norm_num [min_def, max_def]

theorem cau_idea2 : calculate_automation_friendly idea2 = 90 := by
  simp [calculate_automation_friendly, idea2, burdenAutomation, lowerStr_lit_low]
  norm_num

theorem cmo_idea2 : calculate_monetization_clarity idea2 = 100 := by
  simp [calculate_monetization_clarity, idea2, truthyStr,
    show ("subscription".isEmpty) = false from by decide,
    show ("freelancers".isEmpty) = false from by decide,
    show ("automation".isEmpty) = false from by decide]
  norm_num [min_def]

theorem score_sigs2 :
    score_idea DEFAULT_WEIGHTS 0 idea2 sigs2 =
      some { demand_strength := Real.log (253 / 3) * 10
             demand_velocity := 50
             competition_proxy := 65
             feasibility := 95
             automation_friendly := 90
             monetization_clarity := 100
             total := Real.log (253 / 3) * 10 * 0.25 + 57.75 } := by
  simp [score_idea, lookup, DEFAULT_WEIGHTS, cds_sigs2, cdv_sigs2, ccp_sigs2,
    cfe_idea2, cau_idea2, cmo_idea2, ScoreBreakdown.mk.injEq]
  ring_nf

/-- C2 counterexample: in the spec's scenario (three volume signals
`150`, `75`, `25`; idea with low ops burden and all monetization fields
present), the total under the default weights is
`2.5 * ln(253/3) + 57.75 ≈ 68.84`, which is NOT strictly greater than 70 —
refuting the claim's final conjunct at its own concrete input. -/
theorem C2_counterexample :
    ((score_idea DEFAULT_WEIGHTS 0 idea2 sigs2).map
      (fun b => b.total)).getD 100 < 70 := by
  rw [score_sigs2]
  simp only [Option.map, Option.getD]
  nlinarith [log_84_lt]

/-- C2 (amended): in the spec's scenario the factor values are as claimed —
feasibility `95`, monetization clarity `100`, automation friendliness `90` —
but the weighted total is strictly between `68` and `70`, not greater
than `70`. -/
theorem C2_scenario_factors_and_total :
    (score_idea DEFAULT_WEIGHTS 0 idea2 sigs2).map
        (fun b => (b.feasibility, b.monetization_clarity, b.automation_friendly)) =
      some (95, 100, 90) ∧
    68 < ((score_idea DEFAULT_WEIGHTS 0 idea2 sigs2).map
      (fun b => b.total)).getD 0 ∧
    ((score_idea DEFAULT_WEIGHTS 0 idea2 sigs2).map
      (fun b => b.total)).getD 0 < 70 := by
  rw [score_sigs2]
  refine ⟨rfl, ?_, ?_⟩
  · simp only [Option.map, Option.getD]
    nlinarith [log_84_gt]
  · simp only [Option.map, Option.getD]
    nlinarith [log_84_lt]

/-! Claim C7: determinism / purity. The factor functions are pure except
that `calculate_demand_velocity` reads the system clock through
`_is_recent` (`datetime.utcnow()`), modelled by the explicit `today`
parameter. -/

/-- C7 (amended): `score_idea` is a pure function of weights, idea, signals
and the clock reading; in particular two calls with the same clock reading
agree, and whenever no signal carries a `data_date` the clock does not
influence the result at all. But the clock is a genuine hidden input of the
recency fallback, so calls at different times can disagree (see the
counterexample). -/
theorem C7_fixed_clock_determinism :
    ∀ (w : List (String × ℝ)) (today1 today2 : ℤ) (idea : Idea)
      (signals : List Signal),
      (∀ s ∈ signals, s.data_date = none) →
      score_idea w today1 idea signals = score_idea w today2 idea signals := by
  intro w today1 today2 idea signals hdate
  have hany : ∀ t : ℤ, signals.any (signalRecent t) = false := by
    intro t
    rw [List.any_eq_false]
    intro s hs
    simp [signalRecent, hdate s hs]
  have hdv : calculate_demand_velocity today1 signals =
      calculate_demand_velocity today2 signals := by
    simp only [calculate_demand_velocity, hany]
  simp only [score_idea, hdv]

/-- C7 witness: the time-independence part at a concrete sparse input and
two different clock readings. -/
theorem C7_fixed_clock_determinism_witness :
    score_idea DEFAULT_WEIGHTS 0 {} [] = score_idea DEFAULT_WEIGHTS 1 {} [] :=
  C7_fixed_clock_determinism DEFAULT_WEIGHTS 0 1 {} [] (by simp)

/-- A signal with no growth metric but a parseable `data_date`: its
velocity contribution depends on the clock. `2020-01-05` is day `18266`. -/
noncomputable def sigRec : Signal :=
  { metric_type := "other", metric_value := 0, data_date := some "2020-01-05" }

theorem cds_sigRec : calculate_demand_strength [sigRec] = 50 := by
  simp [calculate_demand_strength, sigRec, volumeTypes]
  norm_num

theorem ccp_sigRec : calculate_competition_proxy [sigRec] {} = 65 := by
  have hpred : containsSub "show_hn".data ("" : String).data = false := by decide
  simp only [calculate_competition_proxy, cds_sigRec]
  simp [sigRec, hpred]
  norm_num

theorem cdv_sigRec_recent : calculate_demand_velocity 18266 [sigRec] = 70 := by
  simp [calculate_demand_velocity, sigRec, growthTypes, signalRecent,
    show is_recent 18266 "2020-01-05" = true from by decide,
    show ("2020-01-05".isEmpty) = false from by decide]
  norm_num

theorem cdv_sigRec_stale : calculate_demand_velocity 18366 [sigRec] = 50 := by
  simp [calculate_demand_velocity, sigRec, growthTypes, signalRecent,
    show is_recent 18366 "2020-01-05" = false from by decide]
  norm_num

/-- C7 counterexample: the same weights, idea and signals scored at two
different clock readings (day 18266, the signal's own date, and day 18366,
a hundred days later) give different breakdowns — `datetime.utcnow()` is an
input beyond the function's arguments, refuting strict purity/determinism
across calls. -/
theorem C7_counterexample :
    score_idea DEFAULT_WEIGHTS 18266 {} [sigRec] ≠
      score_idea DEFAULT_WEIGHTS 18366 {} [sigRec] := by
  have s1 : score_idea DEFAULT_WEIGHTS 18266 {} [sigRec] =
      some { demand_strength := 50, demand_velocity := 70,
             competition_proxy := 65, feasibility := 65,
             automation_friendly := 60, monetization_clarity := 50,
             total := 60.25 } := by
    simp [score_idea, lookup, DEFAULT_WEIGHTS, cds_sigRec, cdv_sigRec_recent,
      ccp_sigRec, cfe_sparse, cau_sparse, cmo_sparse, ScoreBreakdown.mk.injEq]
    norm_num
  have s2 : score_idea DEFAULT_WEIGHTS 18366 {} [sigRec] =
      some { demand_strength := 50, demand_velocity := 50,
             competition_proxy := 65, feasibility := 65,
             automation_friendly := 60, monetization_clarity := 50,
             total := 56.25 } := by
    simp [score_idea, lookup, DEFAULT_WEIGHTS, cds_sigRec, cdv_sigRec_stale,
      ccp_sigRec, cfe_sparse, cau_sparse, cmo_sparse, ScoreBreakdown.mk.injEq]
    norm_num
  rw [s1, s2]
  intro h
  have h2 := (ScoreBreakdown.mk.injEq _ _ _ _ _ _ _ _ _ _ _ _ _ _).mp
    (Option.some.inj h)
  norm_num at h2

/-! Claim C4: range invariants of the factor scores and the total. -/

theorem cds_bounds (signals : List Signal)
    (h : ∀ s ∈ signals, s.metric_type ∈ volumeTypes → 0 ≤ s.metric_value) :
    0 ≤ calculate_demand_strength signals ∧
      calculate_demand_strength signals ≤ 100 := by
  simp only [calculate_demand_strength]
  by_cases he : signals.isEmpty
  · rw [if_pos he]
    norm_num
  · rw [if_neg he]
    by_cases hv : ((signals.filter fun s =>
        volumeTypes.contains s.metric_type).map fun s => s.metric_value).isEmpty
    · rw [if_pos hv]
      norm_num
    · rw [if_neg hv]
      refine ⟨le_min (by norm_num) ?_, min_le_left _ _⟩
      have hsum : (0:ℝ) ≤ ((signals.filter fun s =>
          volumeTypes.contains s.metric_type).map fun s => s.metric_value).sum := by
        apply List.sum_nonneg
        intro x hx
        rw [List.mem_map] at hx
        obtain ⟨s, hs, rfl⟩ := hx
        rw [List.mem_filter] at hs
        exact h s hs.1 (by simpa using hs.2)
      have havg : (0:ℝ) ≤ ((signals.filter fun s =>
          volumeTypes.contains s.metric_type).map fun s => s.metric_value).sum /
          (((signals.filter fun s =>
            volumeTypes.contains s.metric_type).map fun s => s.metric_value).length) :=
        div_nonneg hsum (Nat.cast_nonneg _)
      have hlog : (0:ℝ) ≤ Real.log (1 + _) := Real.log_nonneg (by linarith)
      exact mul_nonneg hlog (by norm_num)

theorem cdv_bounds (today : ℤ) (signals : List Signal) :
    0 ≤ calculate_demand_velocity today signals ∧
      calculate_demand_velocity today signals ≤ 100 := by
  simp only [calculate_demand_velocity]
  by_cases he : signals.isEmpty
  · rw [if_pos he]
    norm_num
  · rw [if_neg he]
    by_cases hg : (!((signals.filter fun s =>
        growthTypes.contains s.metric_type).map fun s => s.metric_value).isEmpty)
    · rw [if_pos hg]
      refine ⟨le_max_left _ _, max_le (by norm_num) (min_le_left _ _)⟩
    · rw [if_neg hg]
      by_cases ha : signals.any (signalRecent today)
      · rw [if_pos ha]
        norm_num
      · rw [if_neg ha]
        norm_num

theorem ccp_bounds (signals : List Signal) (idea : Idea) :
    0 ≤ calculate_competition_proxy signals idea ∧
      calculate_competition_proxy signals idea ≤ 100 := by
  simp only [calculate_competition_proxy]
  split
  · norm_num
  · split
    · norm_num
    · split
      · norm_num
      · norm_num

theorem cfe_bounds (idea : Idea) :
    0 ≤ calculate_feasibility idea ∧ calculate_feasibility idea ≤ 100 := by
  simp only [calculate_feasibility]
  exact ⟨le_max_left _ _, max_le (by norm_num) (min_le_left _ _)⟩

theorem cau_bounds (idea : Idea) :
    0 ≤ calculate_automation_friendly idea ∧
      calculate_automation_friendly idea ≤ 100 := by
  simp only [calculate_automation_friendly, burdenAutomation]
  split
  · norm_num
  · split
    · norm_num
    · split
      · norm_num
      · norm_num

theorem cmo_bounds (idea : Idea) :
    0 ≤ calculate_monetization_clarity idea ∧
      calculate_monetization_clarity idea ≤ 100 := by
  simp only [calculate_monetization_clarity]
  split <;> split <;> split <;> norm_num [min_def]

/-- C4: whenever every volume-metric signal value is non-negative, each of
the six factor scores lies in `[0, 100]`; and under a weight table whose six
looked-up weights are non-negative and sum to `1`, the total is a convex
combination and also lies in `[0, 100]`. -/
theorem C4_scores_and_total_in_range :
    ∀ (w : List (String × ℝ)) (today : ℤ) (idea : Idea)
      (signals : List Signal) (b : ScoreBreakdown) (w1 w2 w3 w4 w5 w6 : ℝ),
      (∀ s ∈ signals, s.metric_type ∈ volumeTypes → 0 ≤ s.metric_value) →
      lookup w "demand_strength" = some w1 →
      lookup w "demand_velocity" = some w2 →
      lookup w "competition_proxy" = some w3 →
      lookup w "feasibility" = some w4 →
      lookup w "automation_friendly" = some w5 →
      lookup w "monetization_clarity" = some w6 →
      0 ≤ w1 → 0 ≤ w2 → 0 ≤ w3 → 0 ≤ w4 → 0 ≤ w5 → 0 ≤ w6 →
      w1 + w2 + w3 + w4 + w5 + w6 = 1 →
      score_idea w today idea signals = some b →
      (0 ≤ b.demand_strength ∧ b.demand_strength ≤ 100) ∧
      (0 ≤ b.demand_velocity ∧ b.demand_velocity ≤ 100) ∧
      (0 ≤ b.competition_proxy ∧ b.competition_proxy ≤ 100) ∧
      (0 ≤ b.feasibility ∧ b.feasibility ≤ 100) ∧
      (0 ≤ b.automation_friendly ∧ b.automation_friendly ≤ 100) ∧
      (0 ≤ b.monetization_clarity ∧ b.monetization_clarity ≤ 100) ∧
      (0 ≤ b.total ∧ b.total ≤ 100) := by
  intro w today idea signals b w1 w2 w3 w4 w5 w6 hvol h1 h2 h3 h4 h5 h6
    hw1 hw2 hw3 hw4 hw5 hw6 hsum hb
  rw [score_idea, h1, h2, h3, h4, h5, h6] at hb
  simp only [Option.some_bind] at hb
  obtain rfl := (Option.some.inj hb).symm
  have hds := cds_bounds signals hvol
  have hdv := cdv_bounds today signals
  have hcp := ccp_bounds signals idea
  have hfe := cfe_bounds idea
  have hau := cau_bounds idea
  have hmo := cmo_bounds idea
  refine ⟨hds, hdv, hcp, hfe, hau, hmo, ?_, ?_⟩
  · dsimp only
    have p1 := mul_nonneg hds.1 hw1
    have p2 := mul_nonneg hdv.1 hw2
    have p3 := mul_nonneg hcp.1 hw3
    have p4 := mul_nonneg hfe.1 hw4
    have p5 := mul_nonneg hau.1 hw5
    have p6 := mul_nonneg hmo.1 hw6
    linarith
  · dsimp only
    have p1 := mul_le_mul_of_nonneg_right hds.2 hw1
    have p2 := mul_le_mul_of_nonneg_right hdv.2 hw2
    have p3 := mul_le_mul_of_nonneg_right hcp.2 hw3
    have p4 := mul_le_mul_of_nonneg_right hfe.2 hw4
    have p5 := mul_le_mul_of_nonneg_right hau.2 hw5
    have p6 := mul_le_mul_of_nonneg_right hmo.2 hw6
    nlinarith [hsum]

/-- C4 witness: the default table and the sparse input — the total `46`
lies in `[0, 100]`. -/
theorem C4_scores_and_total_in_range_witness :
    ((0:ℝ) ≤ 46 ∧ (46:ℝ) ≤ 100) := by
  have h := C4_scores_and_total_in_range DEFAULT_WEIGHTS 0 {} []
    ⟨0, 50, 80, 65, 60, 50, 46⟩ 0.25 0.2 0.15 0.2 0.1 0.1
    (by simp)
    (by simp [lookup, DEFAULT_WEIGHTS]; try norm_num)
    (by simp [lookup, DEFAULT_WEIGHTS]; try norm_num)
    (by simp [lookup, DEFAULT_WEIGHTS]; try norm_num)
    (by simp [lookup, DEFAULT_WEIGHTS]; try norm_num)
    (by simp [lookup, DEFAULT_WEIGHTS]; try norm_num)
    (by simp [lookup, DEFAULT_WEIGHTS]; try norm_num)
    (by norm_num) (by norm_num) (by norm_num) (by norm_num) (by norm_num)
    (by norm_num) (by norm_num)
    (score_idea_default_empty 0)
  exact h.2.2.2.2.2.2

/-! Claim C5: `rank_ideas` sorts descending by total score, stably, and
ranks from 1. The stable sort `sortByDesc` is analysed through the
index-decorated list `scored.enum`. -/

theorem mem_insertByDesc {α : Type} (key : α → ℝ) (x z : α) :
    ∀ l : List α, z ∈ insertByDesc key x l → z = x ∨ z ∈ l := by
  intro l
  induction l with
  | nil => simp [insertByDesc]
  | cons y ys ih =>
    simp only [insertByDesc]
    by_cases h : key y ≤ key x
    · rw [if_pos h]
      intro hz
      rcases List.mem_cons.mp hz with h1 | h2
      · exact Or.inl h1
      · exact Or.inr h2
    · rw [if_neg h]
      intro hz
      rcases List.mem_cons.mp hz with h1 | h2
      · exact Or.inr (h1 ▸ List.mem_cons_self y ys)
      · rcases ih h2 with h3 | h4
        · exact Or.inl h3
        · exact Or.inr (List.mem_cons_of_mem y h4)

theorem mem_sortByDesc {α : Type} (key : α → ℝ) (z : α) :
    ∀ l : List α, z ∈ sortByDesc key l → z ∈ l := by
  intro l
  induction l with
  | nil => simp [sortByDesc]
  | cons x xs ih =>
    simp only [sortByDesc]
    intro hz
    rcases mem_insertByDesc key x z _ hz with h1 | h2
    · exact h1 ▸ List.mem_cons_self x xs
    · exact List.mem_cons_of_mem x (ih h2)

theorem pairwise_insertByDesc {α : Type} (key : α → ℝ) (x : α) :
    ∀ l : List α, List.Pairwise (fun a b => key b ≤ key a) l →
      List.Pairwise (fun a b => key b ≤ key a) (insertByDesc key x l) := by
  intro l
  induction l with
  | nil =>
    intro _
    simp [insertByDesc]
  | cons y ys ih =>
    intro hp
    rw [List.pairwise_cons] at hp
    obtain ⟨hy, hys⟩ := hp
    simp only [insertByDesc]
    by_cases h : key y ≤ key x
    · rw [if_pos h, List.pairwise_cons]
      constructor
      · intro z hz
        rcases List.mem_cons.mp hz with h1 | h2
        · exact h1 ▸ h
        · exact le_trans (hy z h2) h
      · exact List.Pairwise.cons hy hys
    · rw [if_neg h, List.pairwise_cons]
      constructor
      · intro z hz
        rcases mem_insertByDesc key x z ys hz with h1 | h2
        · exact h1 ▸ le_of_not_le h
        · exact hy z h2
      · exact ih hys

theorem pairwise_sortByDesc {α : Type} (key : α → ℝ) :
    ∀ l : List α,
      List.Pairwise (fun a b => key b ≤ key a) (sortByDesc key l) := by
  intro l
  induction l with
  | nil => simp [sortByDesc]
  | cons x xs ih => exact pairwise_insertByDesc key x _ ih

theorem length_insertByDesc {α : Type} (key : α → ℝ) (x : α) :
    ∀ l : List α, (insertByDesc key x l).length = l.length + 1 := by
  intro l
  induction l with
  | nil => simp [insertByDesc]
  | cons y ys ih =>
    simp only [insertByDesc]
    by_cases h : key y ≤ key x
    · rw [if_pos h]
      simp
    · rw [if_neg h]
      simp [ih]

theorem length_sortByDesc {α : Type} (key : α → ℝ) :
    ∀ l : List α, (sortByDesc key l).length = l.length := by
  intro l
  induction l with
  | nil => rfl
  | cons x xs ih => simp [sortByDesc, length_insertByDesc, ih]

theorem stable_insertByDesc {β : Type} (key : β → ℝ) (x : ℕ × β) :
    ∀ M : List (ℕ × β),
      List.Pairwise (fun p q => key p.2 = key q.2 → p.1 < q.1) M →
      (∀ m ∈ M, x.1 < m.1) →
      List.Pairwise (fun p q => key p.2 = key q.2 → p.1 < q.1)
        (insertByDesc (fun p => key p.2) x M) := by
  intro M
  induction M with
  | nil =>
    intro _ _
    simp [insertByDesc]
  | cons y ys ih =>
    intro hM hx
    rw [List.pairwise_cons] at hM
    obtain ⟨hy, hys⟩ := hM
    simp only [insertByDesc]
    by_cases h : key y.2 ≤ key x.2
    · rw [if_pos h, List.pairwise_cons]
      refine ⟨?_, List.Pairwise.cons hy hys⟩
      intro z hz _
      exact hx z hz
    · rw [if_neg h, List.pairwise_cons]
      constructor
      · intro z hz heq
        rcases mem_insertByDesc _ x z ys hz with h1 | h2
        · subst h1
          exact absurd (le_of_eq heq) h
        · exact hy z h2 heq
      · exact ih hys (fun m hm => hx m (List.mem_cons_of_mem y hm))

theorem stable_sortByDesc {β : Type} (key : β → ℝ) :
    ∀ l : List (ℕ × β),
      List.Pairwise (fun p q => p.1 < q.1) l →
      List.Pairwise (fun p q => key p.2 = key q.2 → p.1 < q.1)
        (sortByDesc (fun p => key p.2) l) := by
  intro l
  induction l with
  | nil =>
    intro _
    simp [sortByDesc]
  | cons x xs ih =>
    intro hl
    rw [List.pairwise_cons] at hl
    obtain ⟨hx, hxs⟩ := hl
    simp only [sortByDesc]
    apply stable_insertByDesc
    · exact ih hxs
    · intro m hm
      exact hx m (mem_sortByDesc _ m xs hm)

theorem map_snd_insertByDesc {β : Type} (key : β → ℝ) (x : ℕ × β) :
    ∀ M : List (ℕ × β),
      (insertByDesc (fun p => key p.2) x M).map Prod.snd =
        insertByDesc key x.2 (M.map Prod.snd) := by
  intro M
  induction M with
  | nil => simp [insertByDesc]
  | cons y ys ih =>
    simp only [insertByDesc, List.map_cons]
    by_cases h : key y.2 ≤ key x.2
    · rw [if_pos h, if_pos h]
      simp
    · rw [if_neg h, if_neg h]
      simp [ih]

theorem map_snd_sortByDesc {β : Type} (key : β → ℝ) :
    ∀ l : List (ℕ × β),
      (sortByDesc (fun p => key p.2) l).map Prod.snd =
        sortByDesc key (l.map Prod.snd) := by
  intro l
  induction l with
  | nil => simp [sortByDesc]
  | cons x xs ih =>
    simp only [sortByDesc, List.map_cons]
    rw [map_snd_insertByDesc, ih]

theorem pairwise_fst_lt_enumFrom {β : Type} :
    ∀ (l : List β) (n : ℕ),
      List.Pairwise (fun p q : ℕ × β => p.1 < q.1) (List.enumFrom n l) := by
  intro l
  induction l with
  | nil =>
    intro n
    simp
  | cons x xs ih =>
    intro n
    rw [List.enumFrom_cons, List.pairwise_cons]
    refine ⟨?_, ih (n + 1)⟩
    intro q hq
    obtain ⟨i, b⟩ := q
    have := (List.mem_enumFrom hq).1
    simpa using Nat.lt_of_succ_le this

theorem map_rank_enum (l : List ScoredIdea) :
    ((l.enum).map (fun p => { p.2 with rank := p.1 + 1 })).map
        (fun x => x.rank) = List.range' 1 l.length := by
  rw [List.map_map]
  have h1 : ((fun x : ScoredIdea => x.rank) ∘ fun p : ℕ × ScoredIdea =>
      { p.2 with rank := p.1 + 1 }) = ((fun i => i + 1) ∘ Prod.fst) := rfl
  rw [h1, ← List.map_map, List.enum_map_fst, List.range'_eq_map_range]
  simp [Nat.add_comm]

/-- C5: given the scored list, `rank_ideas` returns exactly the stable
descending sort of it with ranks attached; the sorted list is pairwise
descending in `total_score`; the same sort applied to the index-decorated
scored list projects to the undecorated sort, and in the decorated output
any two entries with equal total score keep their input order (stability);
the assigned ranks are `1, 2, ..., n` in output order. -/
theorem C5_rank_ideas_sorted_stable_ranked :
    ∀ (w : List (String × ℝ)) (today : ℤ)
      (items : List (Idea × List Signal)) (scored : List ScoredIdea),
      scoredOf w today items = some scored →
      rank_ideas w today items =
        some (((sortByDesc (fun x => x.total_score) scored).enum).map
          (fun p => { p.2 with rank := p.1 + 1 })) ∧
      List.Pairwise (fun a b => b.total_score ≤ a.total_score)
        (sortByDesc (fun x => x.total_score) scored) ∧
      (sortByDesc (fun p => p.2.total_score) scored.enum).map Prod.snd =
        sortByDesc (fun x => x.total_score) scored ∧
      List.Pairwise
        (fun p q => p.2.total_score = q.2.total_score → p.1 < q.1)
        (sortByDesc (fun p => p.2.total_score) scored.enum) ∧
      (((sortByDesc (fun x => x.total_score) scored).enum).map
          (fun p => { p.2 with rank := p.1 + 1 })).map (fun x => x.rank) =
        List.range' 1 scored.length := by
  intro w today items scored hs
  refine ⟨?_, pairwise_sortByDesc _ _, ?_, ?_, ?_⟩
  · rw [rank_ideas, hs]
    rfl
  · have h := map_snd_sortByDesc (fun x : ScoredIdea => x.total_score) scored.enum
    rw [List.enum_map_snd] at h
    exact h
  · exact stable_sortByDesc _ _ (pairwise_fst_lt_enumFrom scored 0)
  · rw [map_rank_enum, length_sortByDesc]

/-- The scored record of the fully sparse idea with no signals. -/
noncomputable def sWit : ScoredIdea :=
  { idea := {}, total_score := 46,
    score_breakdown :=
      ScoreBreakdown.to_dict ⟨0, 50, 80, 65, 60, 50, 46⟩ }

/-- C5 witness: a batch of two identical sparse ideas (a manufactured tie):
the ranked output keeps their input order and carries ranks 1 and 2. -/
theorem C5_rank_ideas_sorted_stable_ranked_witness :
    rank_ideas DEFAULT_WEIGHTS 0 [({}, []), ({}, [])] =
      some [{ sWit with rank := 1 }, { sWit with rank := 2 }] := by
  have hscored : scoredOf DEFAULT_WEIGHTS 0 [({}, []), ({}, [])] =
      some [sWit, sWit] := by
    simp [scoredOf, score_idea_default_empty, sWit]
  have h := C5_rank_ideas_sorted_stable_ranked DEFAULT_WEIGHTS 0
    [({}, []), ({}, [])] [sWit, sWit] hscored
  rw [h.1]
  have hsort : sortByDesc (fun x : ScoredIdea => x.total_score) [sWit, sWit] =
      [sWit, sWit] := by
    simp [sortByDesc, insertByDesc]
  rw [hsort]
  rfl

/-! Claim C10: `rank_ideas` never mutates the caller's idea dicts — all
writes go to the freshly allocated copies. -/

theorem snd_mem_of_mem_enum {β : Type} {p : ℕ × β} {l : List β}
    (hp : p ∈ l.enum) : p.2 ∈ l := by
  obtain ⟨i, b⟩ := p
  have h := List.mem_enumFrom hp
  obtain ⟨-, hlt, heq⟩ := h
  show b ∈ l
  rw [heq]
  exact List.getElem_mem _

theorem scoreCopyPhase_spec (w : List (String × ℝ)) (today : ℤ) :
    ∀ (items : List (ℕ × List Signal)) (h : Heap),
      h.length ≤ (scoreCopyPhase w today h items).1.length ∧
      (∀ r, r < h.length →
        ((scoreCopyPhase w today h items).1)[r]? = h[r]?) ∧
      (∀ rs, (scoreCopyPhase w today h items).2 = some rs →
        ∀ x ∈ rs, h.length ≤ x) := by
  intro items
  induction items with
  | nil =>
    intro h
    refine ⟨le_refl _, fun r _ => rfl, ?_⟩
    intro rs hrs x hx
    simp only [scoreCopyPhase] at hrs
    obtain rfl := Option.some.inj hrs
    simp at hx
  | cons it rest ih =>
    intro h
    obtain ⟨r0, sigs⟩ := it
    simp only [scoreCopyPhase]
    rcases hget : h[r0]? with _ | cell
    · simp only [hget]
      exact ⟨le_refl _, by simp, by simp⟩
    · simp only [hget]
      rcases hsc : score_idea w today cell.fields sigs with _ | b
      · simp only [hsc]
        exact ⟨le_refl _, by simp, by simp⟩
      · simp only [hsc, allocCell]
        obtain ⟨ih1, ih2, ih3⟩ := ih
          (h ++ [{ fields := cell.fields, total_score := some b.total,
                   score_breakdown := some b.to_dict }])
        refine ⟨?_, ?_, ?_⟩
        · exact le_trans (by simp) ih1
        · intro r hr
          rw [ih2 r (by simp; omega)]
          rw [List.getElem?_append_left hr]
        · intro rs hrs x hx
          simp only [Option.map_eq_some'] at hrs
          obtain ⟨rs', hrs', rfl⟩ := hrs
          rcases List.mem_cons.mp hx with h1 | h2
          · subst h1
            exact le_refl _
          · have := ih3 rs' hrs' x h2
            simp at this
            omega

theorem writeRank_frame (h : Heap) (r' k r : ℕ) (hne : r' ≠ r) :
    (writeRank h r' k)[r]? = h[r]? := by
  rw [writeRank]
  rcases hg : h[r']? with _ | c
  · rfl
  · exact List.getElem?_set_ne hne

theorem foldl_writeRank_frame :
    ∀ (ps : List (ℕ × ℕ)) (h0 : Heap) (n0 r : ℕ),
      (∀ p ∈ ps, n0 ≤ p.2) → r < n0 →
      (ps.foldl (fun acc p => writeRank acc p.2 (p.1 + 1)) h0)[r]? = h0[r]? := by
  intro ps
  induction ps with
  | nil =>
    intro h0 n0 r _ _
    rfl
  | cons p ps ih =>
    intro h0 n0 r hmem hr
    simp only [List.foldl_cons]
    rw [ih (writeRank h0 p.2 (p.1 + 1)) n0 r
      (fun q hq => hmem q (List.mem_cons_of_mem p hq)) hr]
    apply writeRank_frame
    have := hmem p (List.mem_cons_self p ps)
    omega

/-- C10: the heap model of `rank_ideas` leaves every pre-existing idea dict
untouched (the caller's dicts are unchanged after the call), and every
reference it returns is a freshly allocated copy — `total_score`,
`score_breakdown` and `rank` are written only into those copies. The signal
lists are plain values the loop only reads. -/
theorem C10_rank_ideas_frame :
    ∀ (w : List (String × ℝ)) (today : ℤ) (h : Heap)
      (items : List (ℕ × List Signal)) (r : ℕ),
      r < h.length →
      ((rankIdeasHeap w today h items).1)[r]? = h[r]? ∧
      (∀ out, (rankIdeasHeap w today h items).2 = some out →
        ∀ x ∈ out, h.length ≤ x) := by
  intro w today h items r hr
  obtain ⟨h1len, h1frame, h1refs⟩ := scoreCopyPhase_spec w today items h
  simp only [rankIdeasHeap]
  rcases hrs : (scoreCopyPhase w today h items).2 with _ | refs
  · simp only [hrs]
    refine ⟨h1frame r hr, ?_⟩
    intro out hout
    exact absurd hout (by simp)
  · simp only [hrs]
    constructor
    · rw [foldl_writeRank_frame _ _ h.length r ?_ hr]
      · exact h1frame r hr
      · intro p hp
        exact h1refs refs hrs p.2
          (mem_sortByDesc _ p.2 refs (snd_mem_of_mem_enum hp))
    · intro out hout
      obtain rfl := Option.some.inj hout
      exact fun x hx => h1refs refs hrs x (mem_sortByDesc _ x refs hx)

/-- C10 witness: a one-cell heap and a one-item batch — the caller's dict at
reference 0 is unchanged by the call. -/
theorem C10_rank_ideas_frame_witness :
    ((rankIdeasHeap DEFAULT_WEIGHTS 0 [{ fields := {} }] [(0, [])]).1)[0]? =
      (([{ fields := {} }] : Heap))[0]? :=
  (C10_rank_ideas_frame DEFAULT_WEIGHTS 0 [{ fields := {} }] [(0, [])] 0
    (by norm_num)).1

end BSA
